import Mathlib

/-!
Verification of the lexora RSS aggregation core (feed fetcher, fan-out
aggregator, validator, and the HTTP date-range filter), via a shallow
embedding of the Go source into Lean.

Modelling conventions:
* Go `time.Time` becomes `GoTime`: a signed instant measured from Go's
  zero time (January 1, year 1 UTC) plus a UTC-location flag.  Negative
  instants are instants before the zero time, which `time.Time` represents
  and which are reachable here — Go's RFC3339 parsing accepts year-0000
  dates, both in the gofeed date parser and in the handler's from/to
  parameters.  The zero instant is the `time.Time` zero value, which the
  code uses to encode an absent timestamp.  `After`/`Before`/`IsZero`
  compare instants exactly as the Go methods do; `UTC` keeps the instant
  and normalizes the location.
* The network and the gofeed parser are external to the repository, so a
  fetch outcome is an oracle input: `Except String ParsedFeed` stands for
  the result of `gofeed.Parser.ParseURLWithContext` (error message or
  parsed document).  Everything the repository computes from that outcome
  is translated from the source.
* Goroutine completion order in `FetchAllFeeds` is nondeterministic, and
  `sort.Slice` from the Go standard library is specified by its documented
  contract (the slice becomes sorted by the comparator; stability is NOT
  guaranteed), so `FetchAllFeeds` is embedded as a relation between the
  per-feed outcomes and the possible (posts, errors) results.  Where a
  claim needs the concrete behaviour of Go's `sort.Slice`, the actual
  algorithm (pdqsort, Go 1.19 and later) is embedded executably in the
  `GoSort` namespace.
-/

namespace Lexora

/-- Go `time.Time`, reduced to what the repository observes: the signed
instant relative to Go's zero time (January 1 year 1 UTC; negative for
instants before it, such as parsed year-0000 RFC3339 dates) and whether
the location is UTC.  The zero instant is the `time.Time` zero value used
for an absent timestamp. -/
structure GoTime where
  instant : Int
  isUTC : Bool
deriving DecidableEq, Repr, Inhabited

/-- Go `t.After(u)`: strictly later instant. -/
def GoTime.After (t u : GoTime) : Bool := u.instant < t.instant

/-- Go `t.Before(u)`: strictly earlier instant. -/
def GoTime.Before (t u : GoTime) : Bool := t.instant < u.instant

/-- Go `t.IsZero()`: the zero instant (location is not inspected). -/
def GoTime.IsZero (t : GoTime) : Bool := t.instant == 0

/-- Go `t.UTC()`: same instant, location set to UTC. -/
def GoTime.UTC (t : GoTime) : GoTime := { t with isUTC := true }

/-- Go `time.Time\x7b\x7d`, the zero value (its nil location reads as UTC). -/
def GoTime.zero : GoTime := ⟨0, true⟩

/-- `feed.Feed` (fetcher.go / store.go): configured name and source URL. -/
structure Feed where
  name : String
  url : String
deriving DecidableEq, Repr, Inhabited

/-- `feed.Post` (fetcher.go). -/
structure Post where
  feedName : String
  title : String
  url : String
  publishedAt : GoTime
deriving DecidableEq, Repr, Inhabited

/-- `feed.FeedError` (fetcher.go); the wrapped error is kept as its message. -/
structure FeedError where
  feedName : String
  url : String
  err : String
deriving DecidableEq, Repr, Inhabited

/-- The fields of `gofeed.Item` the fetcher reads: title, link, and the
parsed publish/update timestamps (nil pointers become `none`). -/
structure Item where
  title : String
  link : String
  publishedParsed : Option GoTime
  updatedParsed : Option GoTime
deriving DecidableEq, Repr, Inhabited

/-- The fields of `gofeed.Feed` the fetcher reads: the document title and
the item list. -/
structure ParsedFeed where
  title : String
  items : List Item
deriving DecidableEq, Repr, Inhabited

/-- Oracle input standing for one `parser.ParseURLWithContext` outcome:
either the parsed document or the fetch/parse error. -/
abbrev FetchOutcome := Except String ParsedFeed

/-- The timestamp resolution inside `FetchFeed`'s loop (fetcher.go lines
47-52): `published := time.Time\x7b\x7d`, overwritten by the published date
converted to UTC when present, else by the updated date converted to UTC
when present. -/
def itemTimestamp (it : Item) : GoTime :=
  match it.publishedParsed with
  | some p => p.UTC
  | none =>
    match it.updatedParsed with
    | some u => u.UTC
    | none => GoTime.zero

/-- The `Post` built for one item in `FetchFeed`'s loop (fetcher.go lines
54-59): feedName is the document title at this stage. -/
def projectItem (docTitle : String) (it : Item) : Post :=
  { feedName := docTitle
    title := it.title
    url := it.link
    publishedAt := itemTimestamp it }

/-- The item loop of `FetchFeed` (fetcher.go lines 42-60): iterate items in
document order with index `i` starting at 0, breaking as soon as
`i >= maxPosts` (Go `int` comparison, so a non-positive `maxPosts` breaks
immediately). -/
def projectItems (docTitle : String) (maxPosts : Int) : Nat → List Item → List Post
  | _, [] => []
  | i, it :: rest =>
    if (i : Int) ≥ maxPosts then []
    else projectItem docTitle it :: projectItems docTitle maxPosts (i + 1) rest

/-- `feed.FetchFeed` (fetcher.go lines 31-62) as a function of the parse
outcome: a parse error is returned unchanged; on success the items are
projected to posts. -/
def FetchFeed (parseResult : FetchOutcome) (maxPosts : Int) : Except String (List Post) :=
  match parseResult with
  | .error e => .error e
  | .ok f => .ok (projectItems f.title maxPosts 0 f.items)

/-- `feed.ValidateFeed` (fetcher.go lines 64-67): fetch with `maxPosts = 1`
and return only the error (`none` models Go's nil error). -/
def ValidateFeed (parseResult : FetchOutcome) : Option String :=
  match FetchFeed parseResult 1 with
  | .error e => some e
  | .ok _ => none

/-- The first `continue` condition of the filter loop in `HandleGetRSS`
(rss.go lines 51-53): drop when a lower bound is present and the post is
strictly before it. -/
def dropBeforeFrom (fromT : GoTime) (p : Post) : Bool :=
  !fromT.IsZero && p.publishedAt.Before fromT

/-- The second `continue` condition of the filter loop in `HandleGetRSS`
(rss.go lines 54-56): drop when an upper bound is present and the post is
strictly after it. -/
def dropAfterTo (toT : GoTime) (p : Post) : Bool :=
  !toT.IsZero && p.publishedAt.After toT

/-- The filter loop of `HandleGetRSS` (rss.go lines 49-58), including the
Go nil-slice state: `var filtered []feed.Post` starts as the nil slice
(`none`); every kept post is appended, which makes the slice non-nil. -/
def filterByRange (fromT toT : GoTime) (posts : List Post) : Option (List Post) :=
  posts.foldl
    (fun acc p =>
      if dropBeforeFrom fromT p then acc
      else if dropAfterTo toT p then acc
      else some (acc.getD [] ++ [p]))
    none

/-- The serialized body of `HandleGetRSS` (rss.go lines 60-64): the
filtered posts, with the nil slice replaced by the empty list so the JSON
is an empty array, never null. -/
def HandleGetRSSBody (fromT toT : GoTime) (posts : List Post) : List Post :=
  (filterByRange fromT toT posts).getD []

/-- A post survives the filter loop exactly when neither drop condition
fires. -/
def keepPost (fromT toT : GoTime) (p : Post) : Bool :=
  !dropBeforeFrom fromT p && !dropAfterTo toT p

/-- The comparator passed to `sort.Slice` in `FetchAllFeeds` (fetcher.go
line 102): `allPosts[i].PublishedAt.After(allPosts[j].PublishedAt)`. -/
def postLess (x y : Post) : Bool := x.publishedAt.After y.publishedAt

/-- `x` may stand (weakly) before `y` in a list sorted by `postLess`:
the comparator does not order `y` strictly before `x`. -/
def postGe (x y : Post) : Prop := postLess y x = false

instance (x y : Post) : Decidable (postGe x y) :=
  inferInstanceAs (Decidable (postLess y x = false))

instance : IsTrans Post postGe := by
  constructor
  intro a b c hab hbc
  simp only [postGe, postLess, GoTime.After, decide_eq_false_iff_not, not_lt] at *
  omega

/-- The name-override loop of `FetchAllFeeds` (fetcher.go lines 91-94):
every returned post's `feedName` is overwritten with the configured
name. -/
def relabel (name : String) (posts : List Post) : List Post :=
  posts.map fun p => { p with feedName := name }

/-- The body of one goroutine in `FetchAllFeeds` after its fetch resolves
(fetcher.go lines 84-95): an error becomes exactly one `FeedError`
carrying the configured name and URL; a success contributes its posts with
`feedName` overridden. -/
def feedOutcome (maxPosts : Int) (fr : Feed × FetchOutcome) :
    Except FeedError (List Post) :=
  match FetchFeed fr.2 maxPosts with
  | .error e => .error ⟨fr.1.name, fr.1.url, e⟩
  | .ok posts => .ok (relabel fr.1.name posts)

/-- Whether a feed's fetch succeeds (and so contributes posts rather than
an error). -/
def fetchOk (maxPosts : Int) (fr : Feed × FetchOutcome) : Bool :=
  match FetchFeed fr.2 maxPosts with
  | .ok _ => true
  | .error _ => false

/-- The error collection accumulated by `FetchAllFeeds`, in goroutine
completion order. -/
def errsOf (maxPosts : Int) (order : List (Feed × FetchOutcome)) : List FeedError :=
  order.filterMap fun fr =>
    match feedOutcome maxPosts fr with
    | .error e => some e
    | .ok _ => none

/-- The post collection accumulated by `FetchAllFeeds` before sorting:
each completing goroutine appends its feed's whole relabeled post block
atomically (the append happens under the mutex), so blocks stay contiguous
and internally in fetch order, in goroutine completion order. -/
def preSort (maxPosts : Int) (order : List (Feed × FetchOutcome)) : List Post :=
  order.flatMap fun fr =>
    match feedOutcome maxPosts fr with
    | .error _ => []
    | .ok ps => ps

/-- The documented contract of Go's `sort.Slice` with the `postLess`
comparator: the output is a permutation of the input that is sorted with
respect to the comparator (adjacent elements are never strictly
out of order).  `sort.Slice` does NOT guarantee stability. -/
def sortSliceSpec (input output : List Post) : Prop :=
  input.Perm output ∧ output.Chain' postGe

/-- `feed.FetchAllFeeds` (fetcher.go lines 69-106) as a relation between
the per-feed fetch outcomes and the possible results.  `frs` pairs each
input feed with the oracle outcome of its fetch; the existentially
quantified `order` is the goroutine completion order, which may be any
permutation of the input list; errors and pre-sort post blocks are
accumulated in that order; the returned posts are the accumulated posts
as rearranged by `sort.Slice`. -/
def FetchAllFeedsRel (maxPosts : Int) (frs : List (Feed × FetchOutcome))
    (out : List Post × List FeedError) : Prop :=
  ∃ order, frs.Perm order ∧ out.2 = errsOf maxPosts order ∧
    sortSliceSpec (preSort maxPosts order) out.1

/-- Closed witness inputs for the aggregation relation: feed A succeeds
with three posts (one of them with no usable timestamp), feed B fails. -/
def wFeedA : Feed := ⟨"A", "http://a"⟩

def wFeedB : Feed := ⟨"B", "http://b"⟩

def wDocA : ParsedFeed :=
  ⟨"Alpha Blog",
   [⟨"p1", "u1", some ⟨5, false⟩, none⟩,
    ⟨"p2", "u2", none, some ⟨3, false⟩⟩,
    ⟨"p3", "u3", none, none⟩]⟩

def wFrs : List (Feed × FetchOutcome) :=
  [(wFeedA, .ok wDocA), (wFeedB, .error ("deadline exceeded"))]

def wPosts : List Post :=
  [⟨"A", "p1", "u1", ⟨5, true⟩⟩, ⟨"A", "p2", "u2", ⟨3, true⟩⟩,
   ⟨"A", "p3", "u3", ⟨0, true⟩⟩]

def wErrs : List FeedError := [⟨"B", "http://b", "deadline exceeded"⟩]

end Lexora

/-!
The `GoSort` namespace is an executable embedding of the sorting algorithm
actually run by `sort.Slice` in the Go standard library (Go 1.19 through at
least 1.24, the version this repository builds with): pattern-defeating
quicksort, `pdqsort_func` and its helpers in the `sort` package.  It is
needed where the documented contract of `sort.Slice` is too weak to settle
a claim — specifically for the stability behaviour on ties.  Loops are
expressed with an explicit fuel argument so that every function is
structurally recursive and evaluates inside the kernel; every fuel value
passed is strictly larger than the number of iterations the corresponding
Go loop can perform on the given range, so fuel exhaustion is unreachable.
-/

namespace GoSort

variable {α : Type} [Inhabited α]

/-- Read `data[i]` (in-bounds at every use site, mirroring Go slice
indexing). -/
def aget (d : Array α) (i : Nat) : α := d.getD i default

/-- `data.Swap(i, j)`. -/
def aswap (d : Array α) (i j : Nat) : Array α :=
  let x := aget d i
  let y := aget d j
  (d.setD i y).setD j x

/-- `data.Less(i, j)`. -/
def lessAt (lt : α → α → Bool) (d : Array α) (i j : Nat) : Bool :=
  lt (aget d i) (aget d j)

/-- Inner loop of `insertionSort_func`:
`for j := i; j > a && data.Less(j, j-1); j-- ... data.Swap(j, j-1)`. -/
def insInner (lt : α → α → Bool) (a : Nat) : Array α → Nat → Array α
  | d, 0 => d
  | d, j+1 =>
    if a < j+1 && lessAt lt d (j+1) j then insInner lt a (aswap d (j+1) j) j else d

/-- Outer loop of `insertionSort_func`: `for i := a + 1; i < b; i++`. -/
def insLoop (lt : α → α → Bool) (a b : Nat) : Nat → Nat → Array α → Array α
  | 0, _, d => d
  | fuel+1, i, d => if i < b then insLoop lt a b fuel (i+1) (insInner lt a d i) else d

/-- `insertionSort_func(data, a, b)`. -/
def insertionSort (lt : α → α → Bool) (a b : Nat) (d : Array α) : Array α :=
  insLoop lt a b (b+1) (a+1) d

/-- `siftDown_func(data, lo, hi, first)` (root is `lo`). -/
def siftDown (lt : α → α → Bool) (first hi : Nat) : Nat → Nat → Array α → Array α
  | 0, _, d => d
  | fuel+1, root, d =>
    let child := 2*root + 1
    if child ≥ hi then d
    else
      let child := if child + 1 < hi && lessAt lt d (first+child) (first+child+1)
                   then child+1 else child
      if !(lessAt lt d (first+root) (first+child)) then d
      else siftDown lt first hi fuel child (aswap d (first+root) (first+child))

/-- First loop of `heapSort_func`:
`for i := (hi - 1) / 2; i >= 0; i-- ... siftDown(i, hi, first)`. -/
def heapBuildLoop (lt : α → α → Bool) (first hi : Nat) : Nat → Array α → Array α
  | i, d =>
    let d := siftDown lt first hi (hi+1) i d
    match i with
    | 0 => d
    | i'+1 => heapBuildLoop lt first hi i' d

/-- Second loop of `heapSort_func`:
`for i := hi - 1; i >= 0; i-- ... Swap(first, first+i); siftDown(lo, i, first)`. -/
def heapPopLoop (lt : α → α → Bool) (first : Nat) : Nat → Array α → Array α
  | i, d =>
    let d := aswap d first (first + i)
    let d := siftDown lt first i (i+1) 0 d
    match i with
    | 0 => d
    | i'+1 => heapPopLoop lt first i' d

/-- `heapSort_func(data, a, b)` (the pop loop is skipped when the range is
empty, as its Go counter starts below zero then). -/
def heapSort (lt : α → α → Bool) (a b : Nat) (d : Array α) : Array α :=
  let first := a
  let hi := b - a
  let d := heapBuildLoop lt first hi ((hi - 1) / 2) d
  match hi with
  | 0 => d
  | n+1 => heapPopLoop lt first n d

/-- `order2_func(data, a, b, &swaps)`: returns the two indices in
comparator order and the updated swap count. -/
def order2 (lt : α → α → Bool) (d : Array α) (a b swaps : Nat) : Nat × Nat × Nat :=
  if lessAt lt d b a then (b, a, swaps + 1) else (a, b, swaps)

/-- `median_func(data, a, b, c, &swaps)`. -/
def median (lt : α → α → Bool) (d : Array α) (a b c swaps : Nat) : Nat × Nat :=
  let (a1, b1, s1) := order2 lt d a b swaps
  let (b2, _, s2) := order2 lt d b1 c s1
  let (_, b3, s3) := order2 lt d a1 b2 s2
  (b3, s3)

/-- `medianAdjacent_func(data, i, &swaps)`. -/
def medianAdjacent (lt : α → α → Bool) (d : Array α) (i swaps : Nat) : Nat × Nat :=
  median lt d (i-1) i (i+1) swaps

/-- The `sortedHint` values of the Go sort package. -/
inductive SortedHint
  | increasing
  | decreasing
  | unknown
deriving DecidableEq, Repr

/-- The `switch swaps` at the end of `choosePivot_func`
(`maxSwaps = 12`). -/
def hintOf (swaps : Nat) : SortedHint :=
  if swaps == 0 then .increasing else if swaps == 12 then .decreasing else .unknown

/-- `choosePivot_func(data, a, b)`: static pivot below 8 elements,
median-of-three up to 49, Tukey ninther from 50
(`shortestNinther = 50`). -/
def choosePivot (lt : α → α → Bool) (d : Array α) (a b : Nat) : Nat × SortedHint :=
  let l := b - a
  let i0 := a + l/4*1
  let j0 := a + l/4*2
  let k0 := a + l/4*3
  if l ≥ 8 then
    if l ≥ 50 then
      let (i1, s1) := medianAdjacent lt d i0 0
      let (j1, s2) := medianAdjacent lt d j0 s1
      let (k1, s3) := medianAdjacent lt d k0 s2
      let (j2, s4) := median lt d i1 j1 k1 s3
      (j2, hintOf s4)
    else
      let (j2, s4) := median lt d i0 j0 k0 0
      (j2, hintOf s4)
  else (j0, hintOf 0)

/-- Loop of `reverseRange_func`. -/
def revLoop : Nat → Nat → Nat → Array α → Array α
  | 0, _, _, d => d
  | fuel+1, i, j, d => if i < j then revLoop fuel (i+1) (j-1) (aswap d i j) else d

/-- `reverseRange_func(data, a, b)`. -/
def reverseRange (a b : Nat) (d : Array α) : Array α := revLoop b a (b-1) d

/-- The scan loop of `partialInsertionSort_func`:
`for i < b && !data.Less(i, i-1) ... i++`. -/
def pisScan (lt : α → α → Bool) (b : Nat) : Nat → Nat → Array α → Nat
  | 0, i, _ => i
  | fuel+1, i, d =>
    if i < b && !(lessAt lt d i (i-1)) then pisScan lt b fuel (i+1) d else i

/-- The shift-left loop of `partialInsertionSort_func`:
`for j := i - 1; j >= 1; j-- ... `. -/
def pisShiftLeft (lt : α → α → Bool) : Nat → Array α → Array α
  | 0, d => d
  | j+1, d => if lessAt lt d (j+1) j then pisShiftLeft lt j (aswap d (j+1) j) else d

/-- The shift-right loop of `partialInsertionSort_func`:
`for j := i + 1; j < b; j++ ... `. -/
def pisShiftRight (lt : α → α → Bool) (b : Nat) : Nat → Nat → Array α → Array α
  | 0, _, d => d
  | fuel+1, j, d =>
    if j < b && lessAt lt d j (j-1) then pisShiftRight lt b fuel (j+1) (aswap d j (j-1))
    else d

/-- The `maxSteps = 5` step loop of `partialInsertionSort_func`
(`shortestShifting = 50`). -/
def pisOuter (lt : α → α → Bool) (a b : Nat) : Nat → Nat → Array α → Array α × Bool
  | 0, _, d => (d, false)
  | steps+1, i, d =>
    let i := pisScan lt b (b + 1) i d
    if i == b then (d, true)
    else if b - a < 50 then (d, false)
    else
      let d := aswap d i (i-1)
      let d := if i - a ≥ 2 then pisShiftLeft lt (i-1) d else d
      let d := if b - i ≥ 2 then pisShiftRight lt b (b + 1) (i+1) d else d
      pisOuter lt a b steps i d

/-- `partialInsertionSort_func(data, a, b)`: returns the data and whether
the range ended up sorted. -/
def partialInsertionSort (lt : α → α → Bool) (a b : Nat) (d : Array α) :
    Array α × Bool :=
  pisOuter lt a b 5 (a+1) d

/-- `for i <= j && data.Less(i, a) ... i++` inside `partition_func`. -/
def skipI (lt : α → α → Bool) (a : Nat) : Nat → Nat → Nat → Array α → Nat
  | 0, i, _, _ => i
  | fuel+1, i, j, d =>
    if i ≤ j && lessAt lt d i a then skipI lt a fuel (i+1) j d else i

/-- `for i <= j && !data.Less(j, a) ... j--` inside `partition_func`. -/
def skipJ (lt : α → α → Bool) (a : Nat) : Nat → Nat → Nat → Array α → Nat
  | 0, _, j, _ => j
  | fuel+1, i, j, d =>
    if i ≤ j && !(lessAt lt d j a) then skipJ lt a fuel i (j-1) d else j

/-- The main `for` loop of `partition_func`; returns the data and the
final `j`. -/
def partLoop (lt : α → α → Bool) (a : Nat) : Nat → Nat → Nat → Array α → Array α × Nat
  | 0, _, j, d => (d, j)
  | fuel+1, i, j, d =>
    let i' := skipI lt a (j+2) i j d
    let j' := skipJ lt a (j+2) i' j d
    if i' > j' then (d, j')
    else partLoop lt a fuel (i'+1) (j'-1) (aswap d i' j')

/-- `partition_func(data, a, b, pivot)`: returns
`(data, newpivot, alreadyPartitioned)`. -/
def partition (lt : α → α → Bool) (a b pivot : Nat) (d : Array α) :
    Array α × Nat × Bool :=
  let d := aswap d a pivot
  let i := a + 1
  let j := b - 1
  let i' := skipI lt a (j+2) i j d
  let j' := skipJ lt a (j+2) i' j d
  if i' > j' then
    (aswap d j' a, j', true)
  else
    let d := aswap d i' j'
    let (d, j2) := partLoop lt a (b+2) (i'+1) (j'-1) d
    (aswap d j2 a, j2, false)

/-- `for i <= j && !data.Less(a, i) ... i++` inside `partitionEqual_func`. -/
def skipI2 (lt : α → α → Bool) (a : Nat) : Nat → Nat → Nat → Array α → Nat
  | 0, i, _, _ => i
  | fuel+1, i, j, d =>
    if i ≤ j && !(lessAt lt d a i) then skipI2 lt a fuel (i+1) j d else i

/-- `for i <= j && data.Less(a, j) ... j--` inside `partitionEqual_func`. -/
def skipJ2 (lt : α → α → Bool) (a : Nat) : Nat → Nat → Nat → Array α → Nat
  | 0, _, j, _ => j
  | fuel+1, i, j, d =>
    if i ≤ j && lessAt lt d a j then skipJ2 lt a fuel i (j-1) d else j

/-- The main loop of `partitionEqual_func`; returns the data and the
final `i`. -/
def partEqLoop (lt : α → α → Bool) (a : Nat) : Nat → Nat → Nat → Array α → Array α × Nat
  | 0, i, _, d => (d, i)
  | fuel+1, i, j, d =>
    let i' := skipI2 lt a (j+2) i j d
    let j' := skipJ2 lt a (j+2) i' j d
    if i' > j' then (d, i')
    else partEqLoop lt a fuel (i'+1) (j'-1) (aswap d i' j')

/-- `partitionEqual_func(data, a, b, pivot)`. -/
def partitionEqual (lt : α → α → Bool) (a b pivot : Nat) (d : Array α) :
    Array α × Nat :=
  let d := aswap d a pivot
  partEqLoop lt a (b+2) (a+1) (b-1) d

/-- `xorshift.Next` (shifts 13, 17, 5 on a uint64 state). -/
def xorshiftNext (r : Nat) : Nat :=
  let r := (Nat.xor r (r <<< 13)) % (2^64)
  let r := Nat.xor r (r >>> 17)
  let r := (Nat.xor r (r <<< 5)) % (2^64)
  r

/-- `bits.Len` (number of binary digits), written with fuel so it
evaluates in the kernel. -/
def bitsLenAux : Nat → Nat → Nat
  | 0, _ => 0
  | fuel+1, n => if n = 0 then 0 else bitsLenAux fuel (n / 2) + 1

/-- `bits.Len(uint(n))`. -/
def bitsLen (n : Nat) : Nat := bitsLenAux (n+1) n

/-- `nextPowerOfTwo(length) = 1 << bits.Len(uint(length))`. -/
def nextPowerOfTwo (length : Nat) : Nat := 2 ^ (bitsLen length)

/-- One iteration of the swap loop in `breakPatterns_func`. -/
def bpSwap (d : Array α) (a length modulus idx i rnd : Nat) : Array α :=
  let other := Nat.land rnd (modulus - 1)
  let other := if other ≥ length then other - length else other
  aswap d (idx - 1 + i) (a + other)

/-- `breakPatterns_func(data, a, b)`: scatters three elements near the
middle using the xorshift generator seeded with the range length. -/
def breakPatterns (a b : Nat) (d : Array α) : Array α :=
  let length := b - a
  if length ≥ 8 then
    let modulus := nextPowerOfTwo length
    let idx := a + (length/4)*2 - 1
    let r1 := xorshiftNext length
    let d := bpSwap d a length modulus idx 0 r1
    let r2 := xorshiftNext r1
    let d := bpSwap d a length modulus idx 1 r2
    let r3 := xorshiftNext r2
    bpSwap d a length modulus idx 2 r3
  else d

/-- `pdqsort_func(data, a, b, limit)` (`maxInsertion = 12`): the outer
`for` loop carries `wasBalanced`/`wasPartitioned`; the recursive call into
the shorter side restarts them at `true`, the continuing side keeps the
updated values, exactly as in Go. -/
def pdqsortLoop (lt : α → α → Bool) :
    Nat → Nat → Nat → Nat → Bool → Bool → Array α → Array α
  | 0, _, _, _, _, _, d => d
  | fuel+1, a, b, limit, wasBalanced, wasPartitioned, d =>
    let length := b - a
    if length ≤ 12 then insertionSort lt a b d
    else if limit == 0 then heapSort lt a b d
    else
      let (d, limit) :=
        if !wasBalanced then (breakPatterns a b d, limit - 1) else (d, limit)
      let (pivot, hint) := choosePivot lt d a b
      let (d, pivot, hint) :=
        if hint == SortedHint.decreasing then
          (reverseRange a b d, (b - 1) - (pivot - a), SortedHint.increasing)
        else (d, pivot, hint)
      let (d, done) :=
        if wasBalanced && wasPartitioned && hint == SortedHint.increasing then
          partialInsertionSort lt a b d
        else (d, false)
      if done then d
      else if a > 0 && !(lessAt lt d (a-1) pivot) then
        let (d, mid) := partitionEqual lt a b pivot d
        pdqsortLoop lt fuel mid b limit wasBalanced wasPartitioned d
      else
        let (d, mid, alreadyPartitioned) := partition lt a b pivot d
        let wasPartitioned := alreadyPartitioned
        let leftLen := mid - a
        let rightLen := b - mid
        let balanceThreshold := length / 8
        let wasBalanced := decide (min leftLen rightLen ≥ balanceThreshold)
        if leftLen < rightLen then
          let d := pdqsortLoop lt fuel a mid limit true true d
          pdqsortLoop lt fuel (mid+1) b limit wasBalanced wasPartitioned d
        else
          let d := pdqsortLoop lt fuel (mid+1) b limit true true d
          pdqsortLoop lt fuel a mid limit wasBalanced wasPartitioned d

/-- Entry point `pdqsort_func` with fuel covering the maximal chain of
recursive calls (each call strictly shrinks the range, so `b + limit + 2`
is more than enough on range `[a, b)`). -/
def pdqsort (lt : α → α → Bool) (a b limit : Nat) (d : Array α) : Array α :=
  pdqsortLoop lt (b + limit + 2) a b limit true true d

/-- `sort.Slice(x, less)`: sorts the whole slice with
`limit = bits.Len(uint(length))`. -/
def sortSlice (lt : α → α → Bool) (l : List α) : List α :=
  let d := l.toArray
  (pdqsort lt 0 d.size (bitsLen d.size) d).toList

end GoSort

namespace Lexora

/-- Shorthand for the posts of the tie-reordering input: every post of the
single feed "A", with the given title, link, and instant (already UTC). -/
def c3Post (t u : String) (n : Nat) : Post := ⟨"A", t, u, ⟨n, true⟩⟩

/-- A 13-item document: twelve items share one publish instant, the last
item is newer.  13 items is the smallest size at which Go's `sort.Slice`
leaves insertion sort for one quicksort partition step. -/
def c3Doc : ParsedFeed :=
  ⟨"Alpha Blog",
   [⟨"t0", "u0", some ⟨1, true⟩, none⟩,
    ⟨"t1", "u1", some ⟨1, true⟩, none⟩,
    ⟨"t2", "u2", some ⟨1, true⟩, none⟩,
    ⟨"t3", "u3", some ⟨1, true⟩, none⟩,
    ⟨"t4", "u4", some ⟨1, true⟩, none⟩,
    ⟨"t5", "u5", some ⟨1, true⟩, none⟩,
    ⟨"t6", "u6", some ⟨1, true⟩, none⟩,
    ⟨"t7", "u7", some ⟨1, true⟩, none⟩,
    ⟨"t8", "u8", some ⟨1, true⟩, none⟩,
    ⟨"t9", "u9", some ⟨1, true⟩, none⟩,
    ⟨"t10", "u10", some ⟨1, true⟩, none⟩,
    ⟨"t11", "u11", some ⟨1, true⟩, none⟩,
    ⟨"t12", "u12", some ⟨2, true⟩, none⟩]⟩

/-- A single configured feed whose fetch succeeds with `c3Doc`. -/
def c3Frs : List (Feed × FetchOutcome) := [(⟨"A", "http://a"⟩, .ok c3Doc)]

/-- The accumulated post list before sorting (with one feed there is only
one possible completion order, so this is the feed's fetched sequence,
relabeled). -/
def c3Pre : List Post := preSort 20 c3Frs

/-- What `sort.Slice` (pdqsort) actually does to `c3Pre` in
`FetchAllFeeds`. -/
def c3Out : List Post := GoSort.sortSlice postLess c3Pre

/-- The property asserted by the claim: the merge keeps any two same-feed
posts with equal `publishedAt` in their fetched relative order. -/
def sameFeedTiesPreserved (pre out : List Post) : Prop :=
  ∀ x ∈ pre, ∀ y ∈ pre,
    x.feedName = y.feedName → x.publishedAt = y.publishedAt →
    pre.indexOf x < pre.indexOf y → out.indexOf x < out.indexOf y

instance (pre out : List Post) : Decidable (sameFeedTiesPreserved pre out) :=
  inferInstanceAs (Decidable (∀ x ∈ pre, ∀ y ∈ pre,
    x.feedName = y.feedName → x.publishedAt = y.publishedAt →
    pre.indexOf x < pre.indexOf y → out.indexOf x < out.indexOf y))

/-- A two-item document: one item with no dates at all (absent timestamp)
and one item dated before the zero time (a year-0000 RFC3339 date, which
Go's date parsing accepts; instant -5). -/
def c2Doc : ParsedFeed :=
  ⟨"Zeta Blog",
   [⟨"undated", "uu", none, none⟩,
    ⟨"ancient", "ua", some ⟨-5, false⟩, none⟩]⟩

/-- A single configured feed whose fetch succeeds with `c2Doc`. -/
def c2Frs : List (Feed × FetchOutcome) := [(⟨"Z", "http://z"⟩, .ok c2Doc)]

/-- The accumulated post list before sorting (one feed, one possible
completion order). -/
def c2Pre : List Post := preSort 10 c2Frs

/-- What `sort.Slice` (pdqsort) actually does to `c2Pre` in
`FetchAllFeeds`. -/
def c2Out : List Post := GoSort.sortSlice postLess c2Pre

/-- `projectItems` from index `i` takes the first `(maxPosts - i).toNat`
items in order. -/
theorem projectItems_eq_take (docTitle : String) (maxPosts : Int) :
    ∀ (items : List Item) (i : Nat),
      projectItems docTitle maxPosts i items =
        (items.take (maxPosts - i).toNat).map (projectItem docTitle) := by
  intro items
  induction items with
  | nil => intro i; simp [projectItems]
  | cons it rest ih =>
    intro i
    by_cases h : (i : Int) ≥ maxPosts
    · have hz : (maxPosts - i).toNat = 0 := by omega
      simp [projectItems, h, hz]
    · have hpos : 0 < (maxPosts - i).toNat := by omega
      obtain ⟨n, hn⟩ : ∃ n, (maxPosts - i).toNat = n + 1 :=
        ⟨(maxPosts - i).toNat - 1, by omega⟩
      have hn' : (maxPosts - (i + 1 : Nat)).toNat = n := by
        push_cast
        omega
      simp only [projectItems, if_neg h, ih (i + 1), hn, hn', List.take_succ_cons,
        List.map_cons]

/-- C5: on a successful fetch, `FetchFeed` returns the document's items
projected to posts in document order, truncated to the first `maxPosts`
entries; a document with more than `maxPosts` items yields exactly the
first `maxPosts` of them, and any `maxPosts ≤ 0` yields zero posts. -/
theorem FetchFeed_truncates_in_document_order
    (doc : ParsedFeed) (maxPosts : Int) :
    FetchFeed (.ok doc) maxPosts =
      .ok ((doc.items.take maxPosts.toNat).map (projectItem doc.title)) ∧
    (maxPosts ≤ 0 → FetchFeed (.ok doc) maxPosts = .ok []) ∧
    (maxPosts < (doc.items.length : Int) →
      ∃ posts, FetchFeed (.ok doc) maxPosts = .ok posts ∧
        (posts.length : Int) = max maxPosts 0 ∧
        posts = (doc.items.take maxPosts.toNat).map (projectItem doc.title)) := by
  have hbase : FetchFeed (.ok doc) maxPosts =
      .ok ((doc.items.take maxPosts.toNat).map (projectItem doc.title)) := by
    have h := projectItems_eq_take doc.title maxPosts doc.items 0
    simp only [Nat.cast_zero, Int.sub_zero] at h
    simp [FetchFeed, h]
  refine ⟨hbase, ?_, ?_⟩
  · intro hle
    have hz : maxPosts.toNat = 0 := by omega
    simp [hbase, hz]
  · intro hlt
    refine ⟨_, hbase, ?_, rfl⟩
    have hlen : (doc.items.take maxPosts.toNat).length = maxPosts.toNat := by
      rw [List.length_take]
      omega
    rw [List.length_map, hlen]
    omega

/-- Closed witness for `FetchFeed_truncates_in_document_order`: a concrete
three-item document with `maxPosts = 2` returns exactly the first two items
in order, and `maxPosts = 0` and `maxPosts = -3` return no posts. -/
theorem FetchFeed_truncates_witness :
    (FetchFeed (.ok ⟨"Doc", [⟨"a", "ua", none, none⟩, ⟨"b", "ub", none, none⟩,
        ⟨"c", "uc", none, none⟩]⟩) 2 =
      .ok [projectItem ("Doc") ⟨"a", "ua", none, none⟩,
        projectItem ("Doc") ⟨"b", "ub", none, none⟩]) ∧
    (FetchFeed (.ok ⟨"Doc", [⟨"a", "ua", none, none⟩]⟩) 0 = .ok []) ∧
    (FetchFeed (.ok ⟨"Doc", [⟨"a", "ua", none, none⟩]⟩) (-3) = .ok []) := by
  refine ⟨?_, ?_, ?_⟩
  · exact (FetchFeed_truncates_in_document_order
      ⟨"Doc", [⟨"a", "ua", none, none⟩, ⟨"b", "ub", none, none⟩,
        ⟨"c", "uc", none, none⟩]⟩ 2).1
  · exact (FetchFeed_truncates_in_document_order
      ⟨"Doc", [⟨"a", "ua", none, none⟩]⟩ 0).2.1 (by decide)
  · exact (FetchFeed_truncates_in_document_order
      ⟨"Doc", [⟨"a", "ua", none, none⟩]⟩ (-3)).2.1 (by decide)

/-- C6: each projected post's `publishedAt` is the item's publish date
converted to UTC when present, else the item's update date converted to
UTC when present, else the zero (absent) value — never any other
sentinel. -/
theorem projectItem_timestamp_fallback (docTitle : String) (it : Item) :
    (∀ p, it.publishedParsed = some p →
      (projectItem docTitle it).publishedAt = p.UTC) ∧
    (it.publishedParsed = none → ∀ u, it.updatedParsed = some u →
      (projectItem docTitle it).publishedAt = u.UTC) ∧
    (it.publishedParsed = none → it.updatedParsed = none →
      (projectItem docTitle it).publishedAt = GoTime.zero ∧
      (projectItem docTitle it).publishedAt.IsZero = true) := by
  refine ⟨?_, ?_, ?_⟩
  · intro p hp
    simp [projectItem, itemTimestamp, hp]
  · intro hp u hu
    simp [projectItem, itemTimestamp, hp, hu]
  · intro hp hu
    simp [projectItem, itemTimestamp, hp, hu, GoTime.IsZero, GoTime.zero]

/-- Closed witness for `projectItem_timestamp_fallback`: an item with only
an update date gets that date in UTC, and an item with neither date gets
the zero value. -/
theorem projectItem_timestamp_witness :
    (projectItem ("Doc") ⟨"t", "u", none, some ⟨77, false⟩⟩).publishedAt =
      GoTime.UTC ⟨77, false⟩ ∧
    (projectItem ("Doc") ⟨"t", "u", none, none⟩).publishedAt = GoTime.zero := by
  constructor
  · exact (projectItem_timestamp_fallback ("Doc")
      ⟨"t", "u", none, some ⟨77, false⟩⟩).2.1 rfl ⟨77, false⟩ rfl
  · exact ((projectItem_timestamp_fallback ("Doc")
      ⟨"t", "u", none, none⟩).2.2 rfl rfl).1

/-- C7: `ValidateFeed` fetches with `maxPosts = 1` and returns nil exactly
when the fetch-and-parse succeeds (including for a parseable feed with zero
items); otherwise it returns exactly the underlying error. -/
theorem ValidateFeed_nil_iff_parse_ok (parseResult : FetchOutcome) :
    (ValidateFeed parseResult = none ↔ ∃ doc, parseResult = .ok doc) ∧
    (∀ e, ValidateFeed parseResult = some e ↔ parseResult = .error e) ∧
    (∀ doc, parseResult = .ok doc →
      ValidateFeed parseResult = none) := by
  cases parseResult with
  | error e =>
    refine ⟨?_, ?_, ?_⟩
    · simp [ValidateFeed, FetchFeed]
    · intro e'
      simp [ValidateFeed, FetchFeed]
    · intro doc h
      exact absurd h (by simp)
  | ok doc =>
    refine ⟨?_, ?_, ?_⟩
    · simp [ValidateFeed, FetchFeed]
    · intro e'
      simp [ValidateFeed, FetchFeed]
    · intro doc' h
      simp [ValidateFeed, FetchFeed]

/-- Closed witness for `ValidateFeed_nil_iff_parse_ok`: a parseable feed
with zero items validates to nil; a failed parse returns its error. -/
theorem ValidateFeed_witness :
    ValidateFeed (.ok ⟨"Empty", []⟩) = none ∧
    ValidateFeed (.error ("boom")) = some ("boom") := by
  constructor
  · exact (ValidateFeed_nil_iff_parse_ok (.ok ⟨"Empty", []⟩)).2.2 ⟨"Empty", []⟩ rfl
  · exact (ValidateFeed_nil_iff_parse_ok (.error ("boom"))).2.1 ("boom") |>.mpr rfl

theorem filterByRange_go (fromT toT : GoTime) :
    ∀ (posts : List Post) (acc : Option (List Post)),
      (posts.foldl
        (fun acc p =>
          if dropBeforeFrom fromT p then acc
          else if dropAfterTo toT p then acc
          else some (acc.getD [] ++ [p]))
        acc).getD [] = acc.getD [] ++ posts.filter (keepPost fromT toT) := by
  intro posts
  induction posts with
  | nil => intro acc; simp
  | cons p rest ih =>
    intro acc
    by_cases h1 : dropBeforeFrom fromT p
    · have hk : keepPost fromT toT p = false := by
        simp [keepPost, h1]
      simp only [List.foldl_cons, if_pos h1, ih, List.filter_cons, hk]
      simp
    · by_cases h2 : dropAfterTo toT p
      · have hk : keepPost fromT toT p = false := by
          simp [keepPost, h2]
        simp only [List.foldl_cons, if_neg h1, if_pos h2, ih, List.filter_cons, hk]
        simp
      · have hk : keepPost fromT toT p = true := by
          simp [keepPost, h1, h2]
        simp only [List.foldl_cons, if_neg h1, if_neg h2, ih, List.filter_cons, hk]
        simp

/-- The serialized body is the in-order filter of the input by `keepPost`. -/
theorem HandleGetRSSBody_eq_filter (fromT toT : GoTime) (posts : List Post) :
    HandleGetRSSBody fromT toT posts = posts.filter (keepPost fromT toT) := by
  have h := filterByRange_go fromT toT posts none
  simpa [HandleGetRSSBody, filterByRange] using h

/-- C8: the date-range filter keeps exactly the posts inside the inclusive
window: a post is dropped iff its `publishedAt` is strictly before a
present `from` or strictly after a present `to`; an absent (zero) bound is
unbounded on that side; order is preserved; and the serialized result is
the empty list (never null) when nothing matches. -/
theorem HandleGetRSS_filter_window (fromT toT : GoTime) (posts : List Post) :
    HandleGetRSSBody fromT toT posts = posts.filter (keepPost fromT toT) ∧
    (∀ p, keepPost fromT toT p = true ↔
      ((fromT.IsZero = true ∨ fromT.instant ≤ p.publishedAt.instant) ∧
       (toT.IsZero = true ∨ p.publishedAt.instant ≤ toT.instant))) ∧
    (posts.filter (keepPost fromT toT) = [] →
      HandleGetRSSBody fromT toT posts = []) := by
  refine ⟨HandleGetRSSBody_eq_filter fromT toT posts, ?_, ?_⟩
  · intro p
    simp only [keepPost, dropBeforeFrom, dropAfterTo, GoTime.IsZero, GoTime.Before,
      GoTime.After, Bool.and_eq_true, Bool.not_eq_true', Bool.and_eq_false_iff]
    constructor
    · rintro ⟨h1, h2⟩
      constructor
      · rcases h1 with h | h
        · left; simpa using h
        · right; simpa using h
      · rcases h2 with h | h
        · left; simpa using h
        · right; simpa using h
    · rintro ⟨h1, h2⟩
      constructor
      · rcases h1 with h | h
        · left; simpa using h
        · right; simpa using h
      · rcases h2 with h | h
        · left; simpa using h
        · right; simpa using h
  · intro h
    rw [HandleGetRSSBody_eq_filter, h]

/-- Closed witness for `HandleGetRSS_filter_window`: with window
[10, 20], posts at instants 5, 10, 15, 20, 25 keep exactly 10, 15, 20
(inclusive bounds), and an all-outside input serializes to the empty
list. -/
theorem HandleGetRSS_filter_witness :
    HandleGetRSSBody ⟨10, true⟩ ⟨20, true⟩
        [⟨"f", "a", "u", ⟨5, true⟩⟩, ⟨"f", "b", "u", ⟨10, true⟩⟩,
         ⟨"f", "c", "u", ⟨15, true⟩⟩, ⟨"f", "d", "u", ⟨20, true⟩⟩,
         ⟨"f", "e", "u", ⟨25, true⟩⟩] =
      [⟨"f", "b", "u", ⟨10, true⟩⟩, ⟨"f", "c", "u", ⟨15, true⟩⟩,
       ⟨"f", "d", "u", ⟨20, true⟩⟩] ∧
    HandleGetRSSBody ⟨10, true⟩ ⟨20, true⟩ [⟨"f", "a", "u", ⟨5, true⟩⟩] = [] := by
  constructor
  · rw [(HandleGetRSS_filter_window ⟨10, true⟩ ⟨20, true⟩
      [⟨"f", "a", "u", ⟨5, true⟩⟩, ⟨"f", "b", "u", ⟨10, true⟩⟩,
       ⟨"f", "c", "u", ⟨15, true⟩⟩, ⟨"f", "d", "u", ⟨20, true⟩⟩,
       ⟨"f", "e", "u", ⟨25, true⟩⟩]).1]
    decide
  · exact (HandleGetRSS_filter_window ⟨10, true⟩ ⟨20, true⟩
      [⟨"f", "a", "u", ⟨5, true⟩⟩]).2.2 (by decide)

/-- C10 (amended): a post with an absent (zero) `publishedAt` is kept by
the filter exactly when it occurs in the input, the resolved lower bound
is not after the zero time, and the resolved upper bound is not before it.
In particular every lower bound later than the zero time — every preset
range and any explicit `from` dated year 1 or later — excludes it.  The
original claim's universal exclusion under any non-zero `from` is false:
a `from` parsed from a year-0000 RFC3339 date is non-zero yet lies before
the zero time and keeps the post (see the counterexample). -/
theorem HandleGetRSS_zero_timestamp_excluded
    (fromT toT : GoTime) (posts : List Post) (p : Post)
    (hzero : p.publishedAt.IsZero = true) :
    (0 < fromT.instant → p ∉ HandleGetRSSBody fromT toT posts) ∧
    (p ∈ HandleGetRSSBody fromT toT posts ↔
      p ∈ posts ∧ fromT.instant ≤ 0 ∧ 0 ≤ toT.instant) := by
  have hinst : p.publishedAt.instant = 0 := by
    simpa [GoTime.IsZero] using hzero
  have hkeep : keepPost fromT toT p = true ↔
      (fromT.instant ≤ 0 ∧ 0 ≤ toT.instant) := by
    rw [(HandleGetRSS_filter_window fromT toT posts).2.1 p]
    simp only [GoTime.IsZero, beq_iff_eq, hinst]
    omega
  constructor
  · intro hpos hmem
    rw [HandleGetRSSBody_eq_filter] at hmem
    have hk := hkeep.mp (List.mem_filter.mp hmem).2
    omega
  · rw [HandleGetRSSBody_eq_filter]
    constructor
    · intro hmem
      exact ⟨(List.mem_filter.mp hmem).1, hkeep.mp (List.mem_filter.mp hmem).2⟩
    · rintro ⟨hmem, hcond⟩
      exact List.mem_filter.mpr ⟨hmem, hkeep.mpr hcond⟩

/-- Closed witness for `HandleGetRSS_zero_timestamp_excluded`: a
zero-timestamp post is dropped under lower bound 10 but kept when the
lower bound is absent, even with an upper bound present. -/
theorem HandleGetRSS_zero_timestamp_witness :
    (⟨"f", "t", "u", GoTime.zero⟩ : Post) ∉
      HandleGetRSSBody ⟨10, true⟩ ⟨0, true⟩ [⟨"f", "t", "u", GoTime.zero⟩] ∧
    (⟨"f", "t", "u", GoTime.zero⟩ : Post) ∈
      HandleGetRSSBody ⟨0, true⟩ ⟨20, true⟩ [⟨"f", "t", "u", GoTime.zero⟩] := by
  constructor
  · exact (HandleGetRSS_zero_timestamp_excluded ⟨10, true⟩ ⟨0, true⟩
      [⟨"f", "t", "u", GoTime.zero⟩] ⟨"f", "t", "u", GoTime.zero⟩ rfl).1 (by decide)
  · exact ((HandleGetRSS_zero_timestamp_excluded ⟨0, true⟩ ⟨20, true⟩
      [⟨"f", "t", "u", GoTime.zero⟩] ⟨"f", "t", "u", GoTime.zero⟩ rfl).2).mpr
      ⟨by decide, by decide, by decide⟩

/-- C10 counterexample: an explicit `from` of year 0000 — RFC3339 text
that Go's `time.Parse` accepts, yielding a non-zero time before the zero
time, modelled as instant -5 — does not exclude a zero-`publishedAt`
post: the filter keeps it, falsifying the claimed exclusion under every
non-zero lower bound. -/
theorem HandleGetRSS_zero_from_negative_counterexample :
    GoTime.IsZero ⟨-5, true⟩ = false ∧
    (⟨"f", "t", "u", GoTime.zero⟩ : Post).publishedAt.IsZero = true ∧
    (⟨"f", "t", "u", GoTime.zero⟩ : Post) ∈
      HandleGetRSSBody ⟨-5, true⟩ ⟨0, true⟩ [⟨"f", "t", "u", GoTime.zero⟩] := by
  exact ⟨by decide, by decide, by decide⟩

theorem errsOf_length (maxPosts : Int) :
    ∀ order : List (Feed × FetchOutcome),
      (errsOf maxPosts order).length =
        order.countP (fun fr => !fetchOk maxPosts fr) := by
  intro order
  induction order with
  | nil => rfl
  | cons fr rest ih =>
    cases hf : FetchFeed fr.2 maxPosts with
    | error e =>
      have h1 : errsOf maxPosts (fr :: rest) =
          ⟨fr.1.name, fr.1.url, e⟩ :: errsOf maxPosts rest := by
        simp [errsOf, List.filterMap_cons, feedOutcome, hf]
      have h2 : fetchOk maxPosts fr = false := by
        simp [fetchOk, hf]
      rw [h1, List.countP_cons, h2, List.length_cons, ih]
      simp
    | ok ps =>
      have h1 : errsOf maxPosts (fr :: rest) = errsOf maxPosts rest := by
        simp [errsOf, List.filterMap_cons, feedOutcome, hf]
      have h2 : fetchOk maxPosts fr = true := by
        simp [fetchOk, hf]
      rw [h1, List.countP_cons, h2, ih]
      simp

theorem countP_add_not_countP {α : Type} (p : α → Bool) :
    ∀ l : List α, l.countP p + l.countP (fun a => !p a) = l.length := by
  intro l
  induction l with
  | nil => rfl
  | cons a rest ih =>
    by_cases h : p a <;>
      simp [List.countP_cons, h, ← ih] <;> omega

theorem rel_pairwise {maxPosts : Int} {frs : List (Feed × FetchOutcome)}
    {posts : List Post} {errs : List FeedError}
    (h : FetchAllFeedsRel maxPosts frs (posts, errs)) :
    posts.Pairwise postGe := by
  obtain ⟨order, _, _, _, hchain⟩ := h
  exact List.chain'_iff_pairwise.mp hchain

/-- C1: in every possible result of `FetchAllFeeds`, each feed resolves to
exactly one outcome — the number of feeds whose fetch succeeds (each
contributing zero-or-more posts) plus the number of `FeedError`s equals
the number of input feeds — and an empty feed list yields an empty post
list and an empty error list. -/
theorem FetchAllFeeds_exhaustive (maxPosts : Int)
    (frs : List (Feed × FetchOutcome)) (posts : List Post) (errs : List FeedError)
    (h : FetchAllFeedsRel maxPosts frs (posts, errs)) :
    frs.countP (fetchOk maxPosts) + errs.length = frs.length ∧
    (frs = [] → posts = [] ∧ errs = []) := by
  obtain ⟨order, hperm, herrs, hpermOut, hchain⟩ := h
  replace herrs : errs = errsOf maxPosts order := herrs
  replace hpermOut : (preSort maxPosts order).Perm posts := hpermOut
  constructor
  · have h1 : errs.length = order.countP (fun fr => !fetchOk maxPosts fr) := by
      rw [herrs, errsOf_length]
    have h2 : frs.countP (fetchOk maxPosts) = order.countP (fetchOk maxPosts) :=
      hperm.countP_eq _
    rw [h1, h2, countP_add_not_countP, hperm.length_eq]
  · intro hnil
    subst hnil
    have hord : order = [] := hperm.nil_eq.symm
    subst hord
    refine ⟨?_, by simpa using herrs⟩
    have : preSort maxPosts [] = [] := rfl
    rw [this] at hpermOut
    exact hpermOut.nil_eq.symm

theorem wRel : FetchAllFeedsRel 10 wFrs (wPosts, wErrs) := by
  refine ⟨wFrs, List.Perm.refl _, by decide, ?_, ?_⟩
  · have h : preSort 10 wFrs = wPosts := by decide
    rw [h]
  · show List.Chain' postGe wPosts
    simp only [wPosts, List.chain'_cons, List.chain'_singleton]
    exact ⟨by decide, by decide⟩

/-- Closed witness for `FetchAllFeeds_exhaustive` at the concrete
two-feed input. -/
theorem FetchAllFeeds_exhaustive_witness :
    wFrs.countP (fetchOk 10) + wErrs.length = wFrs.length ∧
    (wFrs = [] → wPosts = [] ∧ wErrs = []) :=
  FetchAllFeeds_exhaustive 10 wFrs wPosts wErrs wRel

/-- C2 (amended): every possible merged post list of `FetchAllFeeds` is
sorted by `publishedAt` descending — any post A before a post B has
A.publishedAt ≥ B.publishedAt — and a post with an absent (zero)
`publishedAt` is followed only by posts whose timestamp is at or before
the zero time.  Absent posts therefore sort at the zero value: after
every post dated after year 1, which is every realistic timestamp; but
not after a (parseable) pre-year-1 timestamp, which sorts below the zero
value — the original "after every post with a real timestamp" fails
there (see the counterexample). -/
theorem FetchAllFeeds_sorted_descending (maxPosts : Int)
    (frs : List (Feed × FetchOutcome)) (posts : List Post) (errs : List FeedError)
    (h : FetchAllFeedsRel maxPosts frs (posts, errs)) :
    posts.Pairwise
      (fun a b => b.publishedAt.instant ≤ a.publishedAt.instant) ∧
    posts.Pairwise
      (fun a b => a.publishedAt.IsZero = true → b.publishedAt.instant ≤ 0) := by
  have hp := rel_pairwise h
  constructor
  · refine hp.imp ?_
    intro a b hab
    simp only [postGe, postLess, GoTime.After, decide_eq_false_iff_not, not_lt] at hab
    exact hab
  · refine hp.imp ?_
    intro a b hab hza
    simp only [postGe, postLess, GoTime.After, decide_eq_false_iff_not, not_lt] at hab
    simp only [GoTime.IsZero, beq_iff_eq] at hza
    omega

/-- Closed witness for `FetchAllFeeds_sorted_descending` at the concrete
two-feed input (non-increasing instants 5, 3, 0 with the absent-timestamp
post last). -/
theorem FetchAllFeeds_sorted_witness :
    wPosts.Pairwise
      (fun a b => b.publishedAt.instant ≤ a.publishedAt.instant) ∧
    wPosts.Pairwise
      (fun a b => a.publishedAt.IsZero = true → b.publishedAt.instant ≤ 0) :=
  FetchAllFeeds_sorted_descending 10 wFrs wPosts wErrs wRel

/-- C2 counterexample: a feed whose document holds an undated item and an
item dated before the zero time (year 0000; instant -5).  The
aggregator's actual result — Go's own sort on the accumulated list, a
behaviour of `FetchAllFeedsRel` — places the absent-timestamp post
BEFORE the pre-year-1 post: an absent timestamp does not sort as the
earliest possible value and does not appear after every post with a real
timestamp. -/
theorem FetchAllFeeds_absent_not_last_counterexample :
    FetchAllFeedsRel 10 c2Frs (c2Out, []) ∧
    c2Out = GoSort.sortSlice postLess c2Pre ∧
    c2Out = [⟨"Z", "undated", "uu", ⟨0, true⟩⟩,
      ⟨"Z", "ancient", "ua", ⟨-5, true⟩⟩] ∧
    (⟨"Z", "undated", "uu", ⟨0, true⟩⟩ : Post).publishedAt.IsZero = true ∧
    (⟨"Z", "ancient", "ua", ⟨-5, true⟩⟩ : Post).publishedAt.IsZero = false ∧
    ¬ c2Out.Pairwise (fun a b =>
        a.publishedAt.IsZero = true → b.publishedAt.IsZero = true) := by
  have hout : c2Out = [⟨"Z", "undated", "uu", ⟨0, true⟩⟩,
      ⟨"Z", "ancient", "ua", ⟨-5, true⟩⟩] := by decide
  refine ⟨⟨c2Frs, List.Perm.refl _, by decide, ?_, ?_⟩, rfl, hout, by decide,
    by decide, ?_⟩
  · show (preSort 10 c2Frs).Perm c2Out
    decide
  · show List.Chain' postGe c2Out
    rw [hout]
    simp only [List.chain'_cons, List.chain'_singleton]
    decide
  · intro hpair
    rw [hout] at hpair
    rcases List.pairwise_cons.mp hpair with ⟨h1, _⟩
    exact absurd (h1 ⟨"Z", "ancient", "ua", ⟨-5, true⟩⟩ (by decide) (by decide))
      (by decide)

/-- C4: in every possible result of `FetchAllFeeds`, every merged post
comes from some input feed whose fetch succeeded, and its `feedName` is
that feed's configured name (the relabeling of the fetched post), never
the title embedded in the document. -/
theorem FetchAllFeeds_name_override (maxPosts : Int)
    (frs : List (Feed × FetchOutcome)) (posts : List Post) (errs : List FeedError)
    (h : FetchAllFeedsRel maxPosts frs (posts, errs)) :
    ∀ p ∈ posts, ∃ fr ∈ frs, ∃ ps, FetchFeed fr.2 maxPosts = .ok ps ∧
      p ∈ relabel fr.1.name ps ∧ p.feedName = fr.1.name := by
  obtain ⟨order, hperm, herrs, hpermOut, hchain⟩ := h
  intro p hp
  have hpre : p ∈ preSort maxPosts order := hpermOut.mem_iff.mpr hp
  obtain ⟨fr, hfr, hpin⟩ := List.mem_flatMap.mp hpre
  refine ⟨fr, hperm.mem_iff.mpr hfr, ?_⟩
  cases hf : FetchFeed fr.2 maxPosts with
  | error e =>
    rw [feedOutcome, hf] at hpin
    simp at hpin
  | ok ps =>
    rw [feedOutcome, hf] at hpin
    simp only at hpin
    refine ⟨ps, rfl, hpin, ?_⟩
    obtain ⟨q, _, hq⟩ := List.mem_map.mp hpin
    rw [← hq]

/-- Closed witness for `FetchAllFeeds_name_override` at the concrete
two-feed input: the first merged post carries the configured name of feed
A, which differs from the document's embedded title "Alpha Blog". -/
theorem FetchAllFeeds_name_override_witness :
    (⟨"A", "p1", "u1", ⟨5, true⟩⟩ : Post).feedName = wFeedA.name ∧
    wFeedA.name ≠ wDocA.title := by
  refine ⟨?_, by decide⟩
  obtain ⟨fr, hfr, ps, hok, hmem, hname⟩ :=
    FetchAllFeeds_name_override 10 wFrs wPosts wErrs wRel
      ⟨"A", "p1", "u1", ⟨5, true⟩⟩ (by decide)
  simp only [wFrs, List.mem_cons, List.mem_singleton, List.not_mem_nil, or_false] at hfr
  rcases hfr with rfl | rfl
  · exact hname
  · exfalso
    simp [FetchFeed] at hok

/-- C3 (amended): in every possible result of `FetchAllFeeds`, any two
posts of the same feed appear in descending `publishedAt` order; for
same-feed posts with equal `publishedAt` the relative fetch order is NOT
guaranteed to be preserved, because `sort.Slice` is not stable (see the
counterexample). -/
theorem FetchAllFeeds_same_feed_descending (maxPosts : Int)
    (frs : List (Feed × FetchOutcome)) (posts : List Post) (errs : List FeedError)
    (h : FetchAllFeedsRel maxPosts frs (posts, errs)) :
    posts.Pairwise (fun a b => a.feedName = b.feedName →
      b.publishedAt.instant ≤ a.publishedAt.instant) := by
  refine (rel_pairwise h).imp ?_
  intro a b hab _
  simp only [postGe, postLess, GoTime.After, decide_eq_false_iff_not, not_lt] at hab
  exact hab

/-- Closed witness for `FetchAllFeeds_same_feed_descending` at the
concrete two-feed input. -/
theorem FetchAllFeeds_same_feed_descending_witness :
    wPosts.Pairwise (fun a b => a.feedName = b.feedName →
      b.publishedAt.instant ≤ a.publishedAt.instant) :=
  FetchAllFeeds_same_feed_descending 10 wFrs wPosts wErrs wRel

set_option maxRecDepth 16384 in
/-- C3 counterexample: with a single feed whose 13-item document has
twelve equal publish instants, the aggregator's actual result — `c3Out`,
the output of Go's own `sort.Slice` algorithm on the accumulated list, a
behaviour of `FetchAllFeedsRel` — reorders same-feed posts with equal
`publishedAt`: post "t0" precedes "t6" in the fetched sequence, but "t6"
precedes "t0" in the merged result. -/
theorem FetchAllFeeds_tie_reordered_counterexample :
    FetchAllFeedsRel 20 c3Frs (c3Out, []) ∧
    c3Out = GoSort.sortSlice postLess c3Pre ∧
    ¬ sameFeedTiesPreserved c3Pre c3Out ∧
    c3Pre.indexOf (c3Post ("t0") ("u0") 1) < c3Pre.indexOf (c3Post ("t6") ("u6") 1) ∧
    c3Out.indexOf (c3Post ("t6") ("u6") 1) < c3Out.indexOf (c3Post ("t0") ("u0") 1) := by
  have hout : c3Out =
      [c3Post ("t12") ("u12") 2, c3Post ("t6") ("u6") 1, c3Post ("t2") ("u2") 1,
       c3Post ("t3") ("u3") 1, c3Post ("t4") ("u4") 1, c3Post ("t5") ("u5") 1,
       c3Post ("t0") ("u0") 1, c3Post ("t7") ("u7") 1, c3Post ("t8") ("u8") 1,
       c3Post ("t9") ("u9") 1, c3Post ("t10") ("u10") 1, c3Post ("t11") ("u11") 1,
       c3Post ("t1") ("u1") 1] := by decide
  refine ⟨⟨c3Frs, List.Perm.refl _, by decide, ?_, ?_⟩, rfl, by decide, by decide,
    by decide⟩
  · show (preSort 20 c3Frs).Perm c3Out
    decide
  · show List.Chain' postGe c3Out
    rw [hout]
    simp only [List.chain'_cons, List.chain'_singleton]
    decide

end Lexora
